import Mathlib

/-!
Shallow embedding of `persim/visuals.py` (persistence-diagram and barcode
rendering).  Float entries are modelled as exact rationals; a diagram entry is
a pair (birth, death) where the birth is finite (data model: birth real,
death real or +∞) and the death may be +∞.  Fallible numpy reductions
(min/max of an empty array) and unassigned Python locals are modelled with
`Except`.
-/

namespace Persim

/-- A float value appearing in a diagram: a finite rational or +∞. -/
inductive Val where
  | fin (q : ℚ)
  | inf
deriving DecidableEq, Repr

/-- `np.isinf` on a single value. -/
def Val.isInf : Val → Bool
  | .fin _ => false
  | .inf => true

/-- `death - birth` with a finite subtrahend, as float arithmetic computes it
in `dgm[:, 1] -= dgm[:, 0]`: `∞ - b = ∞`. -/
def Val.subFin : Val → ℚ → Val
  | .fin d, b => .fin (d - b)
  | .inf, _ => .inf

/-- One diagram entry `(birth, death)`; births are finite per the data model. -/
abbrev Entry := ℚ × Val

/-- A persistence diagram: an ordered list of (birth, death) pairs. -/
abbrev Dgm := List Entry

/-- `np.concatenate(diagrams).flatten()`: all values of all diagrams in
row-major order. -/
def flattenVals (ds : List Dgm) : List Val :=
  ds.flatten.flatMap (fun e => [Val.fin e.1, e.2])

/-- `concat_dgms[np.isfinite(concat_dgms)]`: the finite values, in order. -/
def finiteVals (ds : List Dgm) : List ℚ :=
  (flattenVals ds).filterMap (fun v => match v with | .fin q => some q | .inf => none)

/-- `has_inf = np.any(np.isinf(concat_dgms))`. -/
def hasInf (ds : List Dgm) : Bool :=
  (flattenVals ds).any Val.isInf

/-- The 4-tuple (x_down, x_up, y_down, y_up) of axis bounds. -/
structure Bounds where
  x_down : ℚ
  x_up : ℚ
  y_down : ℚ
  y_up : ℚ
deriving DecidableEq, Repr

/-- Lines 105-119 of `plot_diagrams`: when no `xy_range` is supplied, infer
bounds from the finite values.  `np.min`/`np.max` of an empty array raise, so
the empty-finite-set case is an error.  The source computes
`buffer = 1 if xy_range == 0 else x_r / 5`; in this branch `xy_range` is
`None` and `None == 0` is false, so the buffer is always `x_r / 5` (the
adjacent comment "ax_range=0 when only one point" shows `x_r == 0` was the
intended test). -/
def inferBounds (xyRange : Option (ℚ × ℚ × ℚ × ℚ)) (ds : List Dgm) :
    Except String Bounds :=
  match xyRange with
  | none =>
    match (finiteVals ds).min?, (finiteVals ds).max? with
    | some axMin, some axMax =>
      let x_r := axMax - axMin
      let buffer := x_r / 5
      let x_down := axMin - buffer / 2
      let x_up := axMax + buffer
      .ok ⟨x_down, x_up, x_down, x_up⟩
    | _, _ => .error "ValueError: zero-size array to reduction operation"
  | some (a, b, c, d) => .ok ⟨a, b, c, d⟩

/-- Lines 136-137: in lifetime mode each entry's second coordinate is
overwritten in place with death − birth (`dgm[:, 1] -= dgm[:, 0]`). -/
def lifetimeTransform (dgm : Dgm) : Dgm :=
  dgm.map (fun e => (e.1, e.2.subFin e.1))

/-- Lines 152-154: `dgm[np.isinf(dgm)] = b_inf` — every infinite value is
replaced by the sentinel height. -/
def substInf (b_inf : ℚ) (dgm : Dgm) : Dgm :=
  dgm.map (fun e => (e.1, if e.2.isInf then Val.fin b_inf else e.2))

/-- The arguments of `plot_diagrams` that affect computed geometry. -/
structure Args where
  diagrams : List Dgm
  xyRange : Option (ℚ × ℚ × ℚ × ℚ)
  diagonal : Bool
  lifetime : Bool
deriving DecidableEq, Repr

/-- All geometry `plot_diagrams` computes before handing off to matplotlib:
the axis bounds, whether the diagonal line is drawn, the `has_inf` flag, the
infinity-sentinel height `b_inf` (when present), the final plotted diagrams,
and the y-axis label. -/
structure Geometry where
  bounds : Bounds
  diagonal : Bool
  hasInfFlag : Bool
  bInf : Option ℚ
  dgms : List Dgm
  ylabel : String
deriving DecidableEq, Repr

/-- The computational core of `plot_diagrams` (lines 97-154): copy the
diagrams, infer bounds, apply the lifetime transform (which also forces
`diagonal = False` and re-centres the y-range around zero using the span `yr`
computed before the adjustment), then substitute `b_inf = y_down + yr * 0.95`
for every infinite value. -/
def plotGeometry (a : Args) : Except String Geometry :=
  match inferBounds a.xyRange a.diagrams with
  | .error e => .error e
  | .ok b =>
    let hinf := hasInf a.diagrams
    let yr := b.y_up - b.y_down
    let step : List Dgm × Bool × Bounds × String :=
      if a.lifetime then
        let y_down := -yr * (5 / 100)
        let y_up := y_down + yr
        (a.diagrams.map lifetimeTransform, false,
          { b with y_down := y_down, y_up := y_up }, "Lifetime")
      else
        (a.diagrams, a.diagonal, b, "Death")
    match step with
    | (ds, diag, bnds, ylab) =>
      if hinf then
        let b_inf := bnds.y_down + yr * (95 / 100)
        .ok ⟨bnds, diag, hinf, some b_inf, ds.map (substInf b_inf), ylab⟩
      else
        .ok ⟨bnds, diag, hinf, none, ds, ylab⟩

/-! ### Helper lemmas about `plotGeometry` -/


/-- Whenever `plot_diagrams` computes a sentinel `b_inf`, it equals
`y_down + yr * 0.95` for the final bounds, because the lifetime adjustment
keeps the span `yr = y_up - y_down` unchanged. -/
theorem plotGeometry_bInf_eq (a : Args) (g : Geometry) (h : plotGeometry a = .ok g)
    (b : ℚ) (hb : g.bInf = some b) :
    b = g.bounds.y_down + (g.bounds.y_up - g.bounds.y_down) * (95 / 100) := by
  unfold plotGeometry at h
  cases hib : inferBounds a.xyRange a.diagrams with
  | error er => rw [hib] at h; exact absurd h (by simp)
  | ok bd =>
    rw [hib] at h
    by_cases hl : a.lifetime <;>
      simp only [hl, if_true, if_false, Bool.false_eq_true] at h <;>
      by_cases hi : hasInf a.diagrams <;>
        simp only [hi, if_true, if_false, Bool.false_eq_true] at h <;>
        rw [Except.ok.injEq] at h <;> subst h <;> simp at hb <;> try subst hb
    · ring
    · ring

/-- `substInf` sends an entry with infinite death to `(birth, b_inf)`. -/
theorem substInf_getElem? (b_inf : ℚ) (dgm : Dgm) (j : ℕ) (e : Entry)
    (he : dgm[j]? = some e) (hinf : e.2 = Val.inf) :
    (substInf b_inf dgm)[j]? = some (e.1, Val.fin b_inf) := by
  obtain ⟨e1, e2⟩ := e
  simp at hinf
  subst hinf
  simp [substInf, List.getElem?_map, he, Val.isInf]

/-- The lifetime transform keeps the birth and replaces the death by
death − birth (in extended arithmetic: `∞ - b = ∞`). -/
theorem lifetimeTransform_getElem? (dgm : Dgm) (j : ℕ) (p : Entry)
    (hp : dgm[j]? = some p) :
    (lifetimeTransform dgm)[j]? = some (p.1, p.2.subFin p.1) := by
  simp [lifetimeTransform, List.getElem?_map, hp]

/-- When a sentinel was computed, the final plotted diagrams are the
(optionally lifetime-transformed) input diagrams with every infinite value
replaced by the sentinel. -/
theorem plotGeometry_dgms (a : Args) (g : Geometry) (h : plotGeometry a = .ok g)
    (b : ℚ) (hb : g.bInf = some b) :
    g.dgms = (if a.lifetime then a.diagrams.map lifetimeTransform
      else a.diagrams).map (substInf b) := by
  unfold plotGeometry at h
  cases hib : inferBounds a.xyRange a.diagrams with
  | error er => rw [hib] at h; exact absurd h (by simp)
  | ok bd =>
    rw [hib] at h
    by_cases hl : a.lifetime <;>
      simp only [hl, if_true, if_false, Bool.false_eq_true] at h ⊢ <;>
      by_cases hi : hasInf a.diagrams <;>
        simp only [hi, if_true, if_false, Bool.false_eq_true] at h <;>
        rw [Except.ok.injEq] at h <;> subst h <;> simp at hb <;> subst hb
    · ring_nf
    · rfl

/-! ### Claims -/

/-- C1: the claim says the inferred bounds always satisfy `x_min < x_max`
(and `y_min < y_max`), buffer padding guaranteeing a nondegenerate range even
for single-point input.  The code computes `buffer = 1 if xy_range == 0 else
x_r / 5`, testing the `xy_range` argument (which is `None` on this path)
instead of the span `x_r`, contradicting the adjacent comment
"ax_range=0 when only one point".  On the single-point diagram `[(1, 1)]`
with no explicit range the buffer is `0` and the inferred bounds collapse to
`x_down = x_up = y_down = y_up = 1`, so `x_min < x_max` fails. -/
theorem claim1_buffer_slip_degenerate_bounds :
    plotGeometry ⟨[[(1, Val.fin 1)]], none, true, false⟩ =
      .ok ⟨⟨1, 1, 1, 1⟩, true, false, none, [[(1, Val.fin 1)]], "Death"⟩ ∧
    ¬ ((1 : ℚ) < 1) :=
  ⟨by norm_num [plotGeometry, inferBounds, finiteVals, flattenVals, hasInf, substInf,
      Val.isInf, List.min?, List.max?, List.filterMap_cons, List.filterMap_nil], by norm_num⟩

/-- C2 counterexample: on the diagram `[(1, ∞)]` with no explicit range the
inferred bounds are degenerate (`y_down = y_up = 1`, a consequence of the
buffer slip of C1), the sentinel is `b_inf = 1 = y_max`, and the infinite
entry is plotted at height `1`, which is not strictly less than `y_max`.  So
the claim as stated (every substituted sentinel lies strictly inside the
plotted box) is false. -/
theorem claim2_counterexample :
    plotGeometry ⟨[[(1, Val.inf)]], none, true, false⟩ =
      .ok ⟨⟨1, 1, 1, 1⟩, true, true, some 1, [[(1, Val.fin 1)]], "Death"⟩ ∧
    ¬ ((1 : ℚ) < 1) :=
  ⟨by norm_num [plotGeometry, inferBounds, finiteVals, flattenVals, hasInf, substInf,
      Val.isInf, List.min?, List.max?, List.filterMap_cons, List.filterMap_nil], by norm_num⟩

/-- C2 amended: provided the computed y-range is nondegenerate
(`y_down < y_up`), the sentinel `b_inf = y_down + 0.95⋅(y_up − y_down)`
substituted for +∞ is strictly greater than `y_down` and strictly less than
`y_up`, and every entry that was `+∞` is plotted at exactly `(birth, b_inf)`,
hence strictly inside the plotted box. -/
theorem claim2_sentinel_strictly_inside (a : Args) (g : Geometry)
    (h : plotGeometry a = .ok g) (hy : g.bounds.y_down < g.bounds.y_up)
    (b : ℚ) (hb : g.bInf = some b) :
    (g.bounds.y_down < b ∧ b < g.bounds.y_up) ∧
    ∀ (i j : ℕ) (dgm : Dgm) (e : Entry), a.diagrams[i]? = some dgm →
      dgm[j]? = some e → e.2 = Val.inf →
      ∃ dgm', g.dgms[i]? = some dgm' ∧ dgm'[j]? = some (e.1, Val.fin b) := by
  constructor
  · have hbe := plotGeometry_bInf_eq a g h b hb
    constructor <;> rw [hbe] <;> linarith
  · intro i j dgm e hdi hej hinf
    rw [plotGeometry_dgms a g h b hb]
    by_cases hl : a.lifetime
    · simp only [hl, if_true]
      refine ⟨substInf b (lifetimeTransform dgm), ?_, ?_⟩
      · simp [List.getElem?_map, hdi]
      · exact substInf_getElem? b (lifetimeTransform dgm) j (e.1, e.2.subFin e.1)
          (lifetimeTransform_getElem? dgm j e hej) (by rw [hinf]; rfl)
    · simp only [hl, if_false, Bool.false_eq_true]
      refine ⟨substInf b dgm, ?_, ?_⟩
      · simp [List.getElem?_map, hdi]
      · exact substInf_getElem? b dgm j e hej hinf

/-- Witness for C2: the diagram `[(0, 1), (0, ∞)]` has inferred bounds
`(-1/10, 6/5)`, sentinel `227/200`, strictly inside. -/
theorem claim2_sentinel_strictly_inside_witness :
    (((-1 : ℚ)/10 < 227/200 ∧ (227 : ℚ)/200 < 6/5) ∧
    ∀ (i j : ℕ) (dgm : Dgm) (e : Entry),
      (Args.diagrams ⟨[[(0, Val.fin 1), (0, Val.inf)]], none, true, false⟩)[i]? = some dgm →
      dgm[j]? = some e → e.2 = Val.inf →
      ∃ dgm', (Geometry.dgms ⟨⟨-1/10, 6/5, -1/10, 6/5⟩, true, true, some (227/200),
          [[(0, Val.fin 1), (0, Val.fin (227/200))]], "Death"⟩)[i]? = some dgm' ∧
        dgm'[j]? = some (e.1, Val.fin (227/200))) :=
  claim2_sentinel_strictly_inside
    ⟨[[(0, Val.fin 1), (0, Val.inf)]], none, true, false⟩
    ⟨⟨-1/10, 6/5, -1/10, 6/5⟩, true, true, some (227/200),
      [[(0, Val.fin 1), (0, Val.fin (227/200))]], "Death"⟩
    (by norm_num [plotGeometry, inferBounds, finiteVals, flattenVals, hasInf, substInf,
      Val.isInf, List.min?, List.max?, List.filterMap_cons, List.filterMap_nil]) (by norm_num) (227/200) rfl

/-- C3: with `lifetime = True` the diagonal flag of the computed geometry is
`false` regardless of the caller's `diagonal` argument, and the lifetime
transform (`dgm[:, 1] -= dgm[:, 0]`) rewrites every entry's second coordinate
to death − birth (`∞ − b = ∞` for infinite deaths, which the later
substitution step then clamps). -/
theorem claim3_lifetime_transform_diagonal :
    (∀ (a : Args) (g : Geometry), plotGeometry {a with lifetime := true} = .ok g →
      g.diagonal = false) ∧
    (∀ (dgm : Dgm) (j : ℕ) (p : Entry), dgm[j]? = some p →
      (lifetimeTransform dgm)[j]? = some (p.1, p.2.subFin p.1)) := by
  constructor
  · intro a g h
    unfold plotGeometry at h
    cases hib : inferBounds a.xyRange a.diagrams with
    | error er =>
      rw [show ({a with lifetime := true} : Args).xyRange = a.xyRange from rfl, hib] at h
      exact absurd h (by simp)
    | ok bd =>
      rw [show ({a with lifetime := true} : Args).xyRange = a.xyRange from rfl, hib] at h
      simp only [show ({a with lifetime := true} : Args).lifetime = true from rfl, if_true] at h
      by_cases hi : hasInf a.diagrams <;>
        simp only [show ({a with lifetime := true} : Args).diagrams = a.diagrams from rfl, hi,
          if_true, if_false, Bool.false_eq_true] at h <;>
        rw [Except.ok.injEq] at h <;> subst h <;> rfl
  · intro dgm j p hp
    simp [lifetimeTransform, List.getElem?_map, hp]

/-- Witness for C3: the single-diagram input `[(0, 1)]` rendered in lifetime
mode with `diagonal = true` requested still has no diagonal, and the lifetime
transform maps the concrete entry `(1, 3)` to `(1, 2)`. -/
theorem claim3_lifetime_transform_diagonal_witness :
    (Geometry.diagonal ⟨⟨-1/10, 6/5, -13/200, 247/200⟩, false, false, none,
      [[(0, Val.fin 1)]], "Lifetime"⟩ = false) ∧
    (lifetimeTransform [((1 : ℚ), Val.fin 3)])[0]? = some (1, Val.fin 2) :=
  ⟨claim3_lifetime_transform_diagonal.1 ⟨[[(0, Val.fin 1)]], none, true, false⟩
      ⟨⟨-1/10, 6/5, -13/200, 247/200⟩, false, false, none,
        [[(0, Val.fin 1)]], "Lifetime"⟩
      (by norm_num [plotGeometry, inferBounds, finiteVals, flattenVals, hasInf, substInf,
        lifetimeTransform, Val.isInf, Val.subFin, List.min?, List.max?,
        List.filterMap_cons, List.filterMap_nil]),
    by
      have h2 := claim3_lifetime_transform_diagonal.2 [((1 : ℚ), Val.fin 3)] 0 (1, Val.fin 3) rfl
      norm_num [Val.subFin] at h2
      exact h2⟩

/-! ### Matching visualizations (`bottleneck_matching`, `wasserstein_matching`) -/

/-- A diagram as the matching functions consume it: finite points. -/
abbrev Dgm2 := List (ℚ × ℚ)

/-- Lines 211-214 / 261-264: an empty diagram is replaced by the single
placeholder point (0, 0) to keep index arithmetic well-defined. -/
def substEmpty (I : Dgm2) : Dgm2 := if I.isEmpty then [(0, 0)] else I

/-- The projection of a point onto the diagonal.  The source rotates by 45°
(`R = [[cos π/4, -sin π/4], [sin π/4, cos π/4]]`, `IRot = I.dot(R)`), zeroes
the off-diagonal coordinate, and rotates back with `R.T`; the composite map
is exactly `[x, y] ↦ ((x+y)/2, (x+y)/2)`, which is exact over ℚ. -/
def diagProj (p : ℚ × ℚ) : ℚ × ℚ := ((p.1 + p.2) / 2, (p.1 + p.2) / 2)

/-- A connector segment handed to `plt.plot`: its two endpoints. -/
abbrev Seg := (ℚ × ℚ) × (ℚ × ℚ)

/-- The segment drawn for one matched pair (branch structure shared by both
matching functions): both indices in range connects the two points; an
out-of-range first index connects diagram-2's point to its diagonal
projection; symmetrically for the second index; both out of range draws
nothing.  Index accesses are guarded by the range tests, so the `getD`
default is never read. -/
def matchSegment (I1 I2 : Dgm2) (p : ℕ × ℕ) : Option Seg :=
  if I1.length ≤ p.1 ∧ I2.length ≤ p.2 then none
  else if I1.length ≤ p.1 then
    some (I2.getD p.2 (0, 0), diagProj (I2.getD p.2 (0, 0)))
  else if I2.length ≤ p.2 then
    some (I1.getD p.1 (0, 0), diagProj (I1.getD p.1 (0, 0)))
  else
    some (I1.getD p.1 (0, 0), I2.getD p.2 (0, 0))

/-- `np.argmax`: index of the first occurrence of the maximum (0 on an empty
list; the caller checks emptiness separately). -/
def argmaxIdx : List ℚ → ℕ
  | [] => 0
  | x :: xs =>
    let k := argmaxIdx xs
    match xs[k]? with
    | none => 0
    | some m => if m > x then k + 1 else 0

/-- Lines 207-230: `bottleneck_matching` draws the two diagrams and then at
most one connector, for the pair `matchidx[np.argmax(dists)]` where
`dists = [D[i, j] for (i, j) in matchidx]`; `np.argmax` of an empty sequence
raises. -/
def bottleneckConnectors (I1 I2 : Dgm2) (matchidx : List (ℕ × ℕ)) (D : ℕ → ℕ → ℚ) :
    Except String (List Seg) :=
  match matchidx[argmaxIdx (matchidx.map (fun p => D p.1 p.2))]? with
  | none => .error "ValueError: attempt to get argmax of an empty sequence"
  | some p => .ok (matchSegment (substEmpty I1) (substEmpty I2) p).toList

/-- Lines 258-282: `wasserstein_matching` draws one connector per
non-degenerate matched pair, in order. -/
def wassersteinConnectors (I1 I2 : Dgm2) (matchidx : List (ℕ × ℕ)) : List Seg :=
  matchidx.filterMap (matchSegment (substEmpty I1) (substEmpty I2))

/-- `argmaxIdx` is in range on a non-empty list. -/
theorem argmaxIdx_lt (l : List ℚ) (h : l ≠ []) : argmaxIdx l < l.length := by
  induction l with
  | nil => exact absurd rfl h
  | cons x xs ih =>
    simp only [argmaxIdx]
    cases hk : xs[argmaxIdx xs]? with
    | none => simp
    | some m =>
      by_cases hm : m > x
      · have h1 : argmaxIdx xs < xs.length := (List.getElem?_eq_some_iff.mp hk).1
        simp only [hm, if_true, List.length_cons]
        omega
      · simp [hm]

/-- The element at `argmaxIdx` is a maximum of the list. -/
theorem argmaxIdx_max (l : List ℚ) (m : ℚ) (hm : l[argmaxIdx l]? = some m) :
    ∀ y ∈ l, y ≤ m := by
  induction l generalizing m with
  | nil => simp at hm
  | cons x xs ih =>
    simp only [argmaxIdx] at hm
    cases hk : xs[argmaxIdx xs]? with
    | none =>
      rw [hk] at hm
      simp only [List.getElem?_cons_zero, Option.some.injEq] at hm
      subst hm
      intro y hy
      cases xs with
      | nil =>
        simp at hy
        subst hy
        exact le_refl y
      | cons z zs =>
        exfalso
        have h1 := argmaxIdx_lt (z :: zs) (by simp)
        rw [List.getElem?_eq_none_iff] at hk
        omega
    | some mk =>
      rw [hk] at hm
      by_cases hx : mk > x
      · simp only [hx, if_true, List.getElem?_cons_succ] at hm
        rw [hk] at hm
        injection hm with hm
        subst hm
        intro y hy
        rcases List.mem_cons.mp hy with rfl | hy2
        · exact le_of_lt hx
        · exact ih mk hk y hy2
      · simp only [hx, if_false, List.getElem?_cons_zero, Option.some.injEq] at hm
        subst hm
        intro y hy
        rcases List.mem_cons.mp hy with rfl | hy2
        · exact le_refl y
        · exact le_trans (ih mk hk y hy2) (le_of_not_lt hx)

/-- `matchSegment` yields no segment exactly for degenerate pairs. -/
theorem matchSegment_eq_none_iff (I1 I2 : Dgm2) (p : ℕ × ℕ) :
    matchSegment I1 I2 p = none ↔ (I1.length ≤ p.1 ∧ I2.length ≤ p.2) := by
  unfold matchSegment
  by_cases h : I1.length ≤ p.1 ∧ I2.length ≤ p.2
  · simp [h]
  · simp only [h, if_false]
    by_cases h1 : I1.length ≤ p.1 <;> by_cases h2 : I2.length ≤ p.2 <;> simp [h1, h2, h]

/-- Boolean form of the degeneracy test. -/
theorem matchSegment_isNone_eq (I1 I2 : Dgm2) (p : ℕ × ℕ) :
    (matchSegment I1 I2 p).isNone =
      (decide (I1.length ≤ p.1) && decide (I2.length ≤ p.2)) := by
  cases hseg : matchSegment I1 I2 p with
  | none =>
    rcases (matchSegment_eq_none_iff I1 I2 p).mp hseg with ⟨h1, h2⟩
    simp [h1, h2]
  | some s =>
    have hno : ¬(I1.length ≤ p.1 ∧ I2.length ≤ p.2) := fun hc => by
      rw [(matchSegment_eq_none_iff I1 I2 p).mpr hc] at hseg
      cases hseg
    by_cases h1 : I1.length ≤ p.1 <;> by_cases h2 : I2.length ≤ p.2 <;> simp [h1, h2]
    exact hno ⟨h1, h2⟩

/-- A `filterMap` keeps exactly the entries the function does not drop. -/
theorem length_filterMap_add_none {A B : Type} (f : A → Option B) (l : List A) :
    (l.filterMap f).length + (l.filter (fun a => (f a).isNone)).length = l.length := by
  induction l with
  | nil => rfl
  | cons x xs ih =>
    cases hx : f x <;> simp [List.filterMap_cons, hx, List.filter_cons] <;> omega

/-- C4: with a non-empty match index, `bottleneck_matching` draws the
connector of a pair of `matchidx` whose cost `D[i, j]` is maximal (the first
argmax), and exactly one connector is drawn unless that pair is degenerate
(both indices out of range after empty-diagram substitution), in which case
none is. -/
theorem claim4_bottleneck_argmax_connector (I1 I2 : Dgm2) (matchidx : List (ℕ × ℕ))
    (D : ℕ → ℕ → ℚ) (h : matchidx ≠ []) :
    ∃ p, p ∈ matchidx ∧ (∀ q ∈ matchidx, D q.1 q.2 ≤ D p.1 p.2) ∧
      (((substEmpty I1).length ≤ p.1 ∧ (substEmpty I2).length ≤ p.2 ∧
          bottleneckConnectors I1 I2 matchidx D = .ok []) ∨
        (∃ s, matchSegment (substEmpty I1) (substEmpty I2) p = some s ∧
          bottleneckConnectors I1 I2 matchidx D = .ok [s])) := by
  have hlen : (matchidx.map (fun p => D p.1 p.2)).length = matchidx.length := by simp
  have hne : matchidx.map (fun p => D p.1 p.2) ≠ [] := by simp [h]
  have hlt := argmaxIdx_lt _ hne
  obtain ⟨p, hp⟩ : ∃ q, matchidx[argmaxIdx (matchidx.map (fun p => D p.1 p.2))]? = some q :=
    ⟨_, List.getElem?_eq_getElem (by omega)⟩
  have hmem : p ∈ matchidx := List.getElem?_mem hp
  have hdp : (matchidx.map (fun p => D p.1 p.2))[argmaxIdx
      (matchidx.map (fun p => D p.1 p.2))]? = some (D p.1 p.2) := by
    rw [List.getElem?_map, hp]
    rfl
  have hmax : ∀ q ∈ matchidx, D q.1 q.2 ≤ D p.1 p.2 := by
    intro q hq
    exact argmaxIdx_max _ _ hdp _ (List.mem_map_of_mem _ hq)
  refine ⟨p, hmem, hmax, ?_⟩
  unfold bottleneckConnectors
  rw [hp]
  cases hseg : matchSegment (substEmpty I1) (substEmpty I2) p with
  | none =>
    rcases (matchSegment_eq_none_iff _ _ p).mp hseg with ⟨h1, h2⟩
    exact Or.inl ⟨h1, h2, by simp [hseg]⟩
  | some s =>
    exact Or.inr ⟨s, rfl, by simp [hseg]⟩

/-- Witness for C4: diagrams `[(0, 2)]` and `[(0, 1)]` with the single match
`(0, 0)` and constant cost matrix; one connector is drawn between the two
points, realizing the maximum. -/
theorem claim4_bottleneck_argmax_connector_witness :
    ∃ p, p ∈ [((0 : ℕ), (0 : ℕ))] ∧
      (∀ q ∈ [((0 : ℕ), (0 : ℕ))],
        (fun _ _ => (1:ℚ)) q.1 q.2 ≤ (fun _ _ => (1:ℚ)) p.1 p.2) ∧
      (((substEmpty [(((0:ℚ)), 2)]).length ≤ p.1 ∧ (substEmpty [(((0:ℚ)), 1)]).length ≤ p.2 ∧
          bottleneckConnectors [(((0:ℚ)), 2)] [(((0:ℚ)), 1)] [(0, 0)] (fun _ _ => (1:ℚ)) =
            .ok []) ∨
        (∃ s, matchSegment (substEmpty [(((0:ℚ)), 2)]) (substEmpty [(((0:ℚ)), 1)]) p = some s ∧
          bottleneckConnectors [(((0:ℚ)), 2)] [(((0:ℚ)), 1)] [(0, 0)] (fun _ _ => (1:ℚ)) =
            .ok [s])) :=
  claim4_bottleneck_argmax_connector [(((0:ℚ)), 2)] [(((0:ℚ)), 1)] [(0, 0)]
    (fun _ _ => (1:ℚ)) (by simp)

/-- C5: `wasserstein_matching` draws exactly (number of matched pairs) minus
(number of degenerate pairs, both indices out of range after empty-diagram
substitution) connectors. -/
theorem claim5_wasserstein_connector_count (I1 I2 : Dgm2) (matchidx : List (ℕ × ℕ)) :
    (wassersteinConnectors I1 I2 matchidx).length =
      matchidx.length - (matchidx.filter (fun p =>
        decide ((substEmpty I1).length ≤ p.1) &&
          decide ((substEmpty I2).length ≤ p.2))).length := by
  have key := length_filterMap_add_none (matchSegment (substEmpty I1) (substEmpty I2)) matchidx
  have hfil : matchidx.filter
      (fun p => ((matchSegment (substEmpty I1) (substEmpty I2)) p).isNone) =
      matchidx.filter (fun p =>
        decide ((substEmpty I1).length ≤ p.1) && decide ((substEmpty I2).length ≤ p.2)) := by
    apply List.filter_congr
    intro p _
    rw [matchSegment_isNone_eq]
  rw [← hfil]
  unfold wassersteinConnectors
  omega

/-! ### Barcode layout (`Barcode._plot_many_bars`, `Barcode._plot_a_bar`) -/

/-- One horizontal bar: birth, vertical slot, displayed end value (clamped
when the death was infinite), and whether it was an infinite bar. -/
structure Bar where
  birth : ℚ
  slot : ℕ
  endVal : ℚ
  isInfBar : Bool
deriving DecidableEq, Repr

/-- `deaths[np.isfinite(deaths[:, 0]), 0].max()`: the maximum finite death;
`max` of an empty array raises, hence the `Option`. -/
def maxFiniteDeath (dgm : List Entry) : Option ℚ :=
  (dgm.filterMap (fun e => match e.2 with | .fin q => some q | .inf => none)).max?

/-- `_plot_a_bar` for the entry at position `i`: an infinite death is first
overwritten with `1.05 * max_death` (and marked with the arrow glyph); the
bar runs from `(birth, i)` to `(death, i)`, so the slot is the input
position. -/
def mkBar (maxd : ℚ) (i : ℕ) (e : Entry) : Bar :=
  match e.2 with
  | .fin q => ⟨e.1, i, q, false⟩
  | .inf => ⟨e.1, i, (105 / 100) * maxd, true⟩

/-- What `_plot_many_bars` computes for one panel: the bars, the dashed
reference line (at `max_death`, spanning slots 0 to n−1), and the finite and
infinite counts shown in the title. -/
structure PanelData where
  bars : List Bar
  refLine : ℚ × ℕ
  finCount : ℕ
  infCount : ℕ
deriving DecidableEq, Repr

/-- Lines 414-437 and 444-456: `max_death`, `number_of_bars_fin` and
`number_of_bars_inf` are assigned only inside the `number_of_bars > 0` guard,
yet the reference-line and title code reads them unconditionally — an empty
diagram raises `UnboundLocalError`; a non-empty diagram whose deaths are all
infinite raises inside the guard at the empty `max()`. -/
def plotManyBars (dgm : List Entry) : Except String PanelData :=
  if dgm.length > 0 then
    match maxFiniteDeath dgm with
    | none => .error "ValueError: zero-size array to reduction operation"
    | some maxd =>
      .ok { bars := dgm.enum.map (fun ie => mkBar maxd ie.1 ie.2),
            refLine := (maxd, dgm.length - 1),
            finCount := dgm.length - (dgm.filter (fun e => e.2.isInf)).length,
            infCount := (dgm.filter (fun e => e.2.isInf)).length }
  else
    .error "UnboundLocalError: local variable referenced before assignment"

/-- The slot a bar is given is its position argument, in both branches. -/
theorem mkBar_slot (maxd : ℚ) (i : ℕ) (e : Entry) : (mkBar maxd i e).slot = i := by
  cases h : e.2 <;> simp [mkBar, h]

/-- C6: when the barcode panel layout succeeds (at least one finite death),
every bar's slot equals its position in input order (an injective
assignment), finite plus infinite counts equal the total bar count, and every
infinite bar's displayed end equals `1.05` times the maximum finite death. -/
theorem claim6_barcode_slots_counts_clamp (dgm : List Entry) (pd : PanelData)
    (h : plotManyBars dgm = .ok pd) :
    (∀ (k : ℕ) (bar : Bar), pd.bars[k]? = some bar → bar.slot = k) ∧
    pd.finCount + pd.infCount = dgm.length ∧
    pd.bars.length = dgm.length ∧
    (∀ maxd, maxFiniteDeath dgm = some maxd →
      ∀ bar ∈ pd.bars, bar.isInfBar = true → bar.endVal = (105 / 100) * maxd) := by
  unfold plotManyBars at h
  by_cases hn : dgm.length > 0
  · simp only [hn, if_true] at h
    cases hmd : maxFiniteDeath dgm with
    | none => rw [hmd] at h; exact absurd h (by simp)
    | some maxd0 =>
      rw [hmd] at h
      rw [Except.ok.injEq] at h
      subst h
      refine ⟨?_, ?_, ?_, ?_⟩
      · intro k bar hk
        simp only [List.getElem?_map, List.getElem?_enum] at hk
        cases hd : dgm[k]? with
        | none => rw [hd] at hk; cases hk
        | some e =>
          rw [hd] at hk
          have hb : bar = mkBar maxd0 k e := by simpa using hk.symm
          rw [hb]
          exact mkBar_slot maxd0 k e
      · have hle := List.length_filter_le (fun e => e.2.isInf) dgm
        show dgm.length - (dgm.filter (fun e => e.2.isInf)).length +
          (dgm.filter (fun e => e.2.isInf)).length = dgm.length
        omega
      · simp
      · intro maxd hmd2 bar hbar hinf
        injection hmd2 with hmd2
        subst hmd2
        simp only [List.mem_map] at hbar
        obtain ⟨ie, hmem, rfl⟩ := hbar
        cases hie : ie.2.2 with
        | fin q => simp [mkBar, hie] at hinf ⊢
        | inf => simp [mkBar, hie]
  · simp only [hn, if_false] at h
    exact absurd h (by simp)

/-- Witness for C6, the spec scenario: `[(0,1), (0,2), (0,∞)]` yields bars in
slots 0, 1, 2, counts 2 finite and 1 infinite, and the infinite bar ends at
`1.05 × 2 = 2.1 = 21/10`. -/
theorem claim6_barcode_slots_counts_clamp_witness :
    plotManyBars [((0:ℚ), Val.fin 1), (0, Val.fin 2), (0, Val.inf)] =
      .ok ⟨[⟨0, 0, 1, false⟩, ⟨0, 1, 2, false⟩, ⟨0, 2, 21/10, true⟩], (2, 2), 2, 1⟩ ∧
    ((∀ (k : ℕ) (bar : Bar),
        (PanelData.bars ⟨[⟨0, 0, 1, false⟩, ⟨0, 1, 2, false⟩, ⟨0, 2, 21/10, true⟩],
          (2, 2), 2, 1⟩)[k]? = some bar → bar.slot = k) ∧
      (2 : ℕ) + 1 = 3 ∧
      (3 : ℕ) = 3 ∧
      (∀ maxd, maxFiniteDeath [((0:ℚ), Val.fin 1), (0, Val.fin 2), (0, Val.inf)] = some maxd →
        ∀ bar ∈ PanelData.bars ⟨[⟨0, 0, 1, false⟩, ⟨0, 1, 2, false⟩, ⟨0, 2, 21/10, true⟩],
          (2, 2), 2, 1⟩, bar.isInfBar = true → bar.endVal = (105 / 100) * maxd)) := by
  constructor
  · norm_num [plotManyBars, maxFiniteDeath, mkBar, Val.isInf, List.max?,
      List.filterMap_cons, List.filterMap_nil, List.enum, List.enumFrom, List.filter]
  · exact claim6_barcode_slots_counts_clamp [((0:ℚ), Val.fin 1), (0, Val.fin 2), (0, Val.inf)]
      ⟨[⟨0, 0, 1, false⟩, ⟨0, 1, 2, false⟩, ⟨0, 2, 21/10, true⟩], (2, 2), 2, 1⟩ (by
      norm_num [plotManyBars, maxFiniteDeath, mkBar, Val.isInf, List.max?,
        List.filterMap_cons, List.filterMap_nil, List.enum, List.enumFrom, List.filter])

/-- C10: a diagram with zero pairs always fails: the guard skips assigning
`max_death` and the counts, and the unconditional reference-line/title code
then reads the unassigned local. -/
theorem claim10_empty_diagram_errors :
    plotManyBars ([] : List Entry) =
      .error "UnboundLocalError: local variable referenced before assignment" := rfl

/-! ### Frame effect: caller-owned diagrams are never mutated -/

/-- A heap of diagram arrays; a caller-held array is an index into it.  This
models numpy array aliasing: `dgm.astype(np.float32, copy=True)` allocates a
fresh array, while `dgm[:, 1] -= dgm[:, 0]` and `dgm[np.isinf(dgm)] = b_inf`
write through a reference in place. -/
abbrev Store := List Dgm

/-- Line 97: `diagrams = [dgm.astype(np.float32, copy=True) for dgm in
diagrams]` allocates one fresh copy per input diagram and rebinds the local
name to the fresh references; the caller keeps the original references. -/
def copyDiagrams (st : Store) (refs : List ℕ) : Store × List ℕ :=
  (st ++ refs.map (fun r => st.getD r []), List.range' st.length refs.length)

/-- One in-place array mutation at reference `r`. -/
def storeWrite (st : Store) (r : ℕ) (f : Dgm → Dgm) : Store :=
  st.set r (f (st.getD r []))

/-- The mutation footprint of `plot_diagrams`: allocate the copies, then
apply the in-place lifetime rewrite (lines 136-137) and the in-place infinity
substitution (lines 152-154) to the copies only. -/
def plotDiagramsStore (st : Store) (refs : List ℕ) (lifetime hinf : Bool) (bInf : ℚ) :
    Store :=
  match copyDiagrams st refs with
  | (st1, newRefs) =>
    let st2 := if lifetime then
      newRefs.foldl (fun s r => storeWrite s r lifetimeTransform) st1 else st1
    if hinf then newRefs.foldl (fun s r => storeWrite s r (substInf bInf)) st2 else st2

/-- `bottleneck_matching` rebinds locals (the empty-diagram placeholder) and
calls `plot_diagrams([I1, I2], ...)` (which always has `lifetime=False`);
it performs no other array writes, so its store footprint is that call's. -/
def bottleneckMatchingStore (st : Store) (r1 r2 : ℕ) (hinf : Bool) (bInf : ℚ) : Store :=
  plotDiagramsStore st [r1, r2] false hinf bInf

/-- Same footprint for `wasserstein_matching` (it also only rebinds locals
and calls `plot_diagrams([I1, I2], ...)`). -/
def wassersteinMatchingStore (st : Store) (r1 r2 : ℕ) (hinf : Bool) (bInf : ℚ) : Store :=
  plotDiagramsStore st [r1, r2] false hinf bInf

/-- Writing at a different reference leaves an array unchanged. -/
theorem storeWrite_getD_ne (st : Store) (x r : ℕ) (f : Dgm → Dgm) (h : r ≠ x) :
    (storeWrite st x f).getD r [] = st.getD r [] := by
  unfold storeWrite
  simp only [List.getD_eq_getElem?_getD]
  rw [List.getElem?_set_ne (Ne.symm h)]

/-- A fold of writes at references different from `r` leaves `r` unchanged. -/
theorem foldl_storeWrite_preserve (f : Dgm → Dgm) (idxs : List ℕ) (st : Store) (r : ℕ)
    (hr : ∀ x ∈ idxs, r ≠ x) :
    (idxs.foldl (fun s i => storeWrite s i f) st).getD r [] = st.getD r [] := by
  induction idxs generalizing st with
  | nil => rfl
  | cons x xs ih =>
    rw [List.foldl_cons, ih _ (fun y hy => hr y (List.mem_cons_of_mem _ hy))]
    exact storeWrite_getD_ne st x r f (hr x (List.mem_cons_self x xs))

/-- C7: after `plot_diagrams`, `bottleneck_matching` or
`wasserstein_matching`, every caller-supplied diagram array is unchanged: the
lifetime rewrite and infinity substitution write only to the fresh copies
(allocated at indices past the end of the caller's store). -/
theorem claim7_caller_diagrams_unchanged (st : Store) (refs : List ℕ) (lt hf : Bool)
    (b : ℚ) (r : ℕ) (hr : r ∈ refs) (hlen : r < st.length) :
    (plotDiagramsStore st refs lt hf b).getD r [] = st.getD r [] ∧
    (∀ r1 r2 : ℕ, (bottleneckMatchingStore st r1 r2 hf b).getD r [] = st.getD r []) ∧
    (∀ r1 r2 : ℕ, (wassersteinMatchingStore st r1 r2 hf b).getD r [] = st.getD r []) := by
  have key : ∀ (rs : List ℕ) (ltx hfx : Bool),
      (plotDiagramsStore st rs ltx hfx b).getD r [] = st.getD r [] := by
    intro rs ltx hfx
    unfold plotDiagramsStore copyDiagrams
    have hfresh : ∀ x ∈ List.range' st.length rs.length, r ≠ x := by
      intro x hx
      have := (List.mem_range'_1.mp hx).1
      omega
    have happ : (st ++ rs.map (fun q => st.getD q [])).getD r [] = st.getD r [] := by
      simp only [List.getD_eq_getElem?_getD]
      rw [List.getElem?_append_left hlen]
    by_cases hl2 : ltx <;> by_cases hf2 : hfx <;>
      simp only [hl2, hf2, if_true, if_false, Bool.false_eq_true]
    · rw [foldl_storeWrite_preserve _ _ _ _ hfresh, foldl_storeWrite_preserve _ _ _ _ hfresh]
      exact happ
    · rw [foldl_storeWrite_preserve _ _ _ _ hfresh]
      exact happ
    · rw [foldl_storeWrite_preserve _ _ _ _ hfresh]
      exact happ
    · exact happ
  exact ⟨key refs lt hf, fun r1 r2 => key [r1, r2] false hf, fun r1 r2 => key [r1, r2] false hf⟩

/-- Witness for C7: a one-array store holding `[(0, ∞)]`, rendered in
lifetime mode with infinity substitution; the caller's array is unchanged. -/
theorem claim7_caller_diagrams_unchanged_witness :
    (plotDiagramsStore [[((0:ℚ), Val.inf)]] [0] true true (1/2)).getD 0 [] =
      [[((0:ℚ), Val.inf)]].getD 0 [] ∧
    (∀ r1 r2 : ℕ,
      (bottleneckMatchingStore [[((0:ℚ), Val.inf)]] r1 r2 true (1/2)).getD 0 [] =
        [[((0:ℚ), Val.inf)]].getD 0 []) ∧
    (∀ r1 r2 : ℕ,
      (wassersteinMatchingStore [[((0:ℚ), Val.inf)]] r1 r2 true (1/2)).getD 0 [] =
        [[((0:ℚ), Val.inf)]].getD 0 []) :=
  claim7_caller_diagrams_unchanged [[((0:ℚ), Val.inf)]] [0] true true (1/2) 0
    (by simp) (by simp)

/-! ### Barcode layout policy and export buffers -/

/-- The two layout policies of `Barcode`. -/
inductive LayoutPolicy where
  | stacked
  | perDiagram
deriving DecidableEq, Repr

/-- `Barcode.__init__` (lines 305-314): exactly two diagrams select the
stacked dual-panel plotter `_plot_H0_H1`; any other count selects the
one-figure-per-diagram plotter `_plot_Hn`. -/
def barcodePolicy (n : ℕ) : LayoutPolicy :=
  if n = 2 then .stacked else .perDiagram

/-- The figures `plot_barcode` produces, listed by their panel counts:
`_plot_H0_H1` makes one figure with `plt.subplots(2, 1)`; `_plot_Hn` makes
one `plt.subplots(1, 1)` figure per diagram. -/
def barcodeFigures (n : ℕ) : List ℕ :=
  match barcodePolicy n with
  | .stacked => [2]
  | .perDiagram => (List.range n).map (fun _ => 1)

/-- The number of png buffers returned: `_plot_H0_H1` appends one buffer when
export is requested; `_plot_Hn` appends one per loop iteration when export is
requested; otherwise the list stays empty. -/
def barcodeBuffers (n : ℕ) (exportPng : Bool) : ℕ :=
  match barcodePolicy n with
  | .stacked => if exportPng then 1 else 0
  | .perDiagram => (List.range n).foldl (fun acc _ => if exportPng then acc + 1 else acc) 0

/-- A fold that conditionally counts its elements. -/
theorem foldl_export_count {A : Type} (e : Bool) (l : List A) (acc : ℕ) :
    l.foldl (fun a _ => if e then a + 1 else a) acc = acc + (if e then l.length else 0) := by
  induction l generalizing acc with
  | nil => simp
  | cons x xs ih =>
    rw [List.foldl_cons, ih]
    by_cases he : e <;> simp [he] <;> omega

/-- C8: the layout policy is selected by diagram count — two diagrams give
one figure with two stacked panels, any other count one single-panel figure
per diagram — and the number of returned image buffers is zero without
export and one per produced figure with export. -/
theorem claim8_barcode_layout_policy (n : ℕ) (exportPng : Bool) :
    barcodeFigures n = (if n = 2 then [2] else List.replicate n 1) ∧
    (barcodeFigures n).length = (if n = 2 then 1 else n) ∧
    barcodeBuffers n exportPng = (if exportPng then (barcodeFigures n).length else 0) := by
  have h1 : barcodeFigures n = (if n = 2 then [2] else List.replicate n 1) := by
    unfold barcodeFigures barcodePolicy
    by_cases hn : n = 2
    · simp [hn]
    · simp [hn, List.map_const]
  have h2 : (barcodeFigures n).length = (if n = 2 then 1 else n) := by
    rw [h1]
    by_cases hn : n = 2 <;> simp [hn]
  have h3 : barcodeBuffers n exportPng = (if exportPng then (barcodeFigures n).length else 0) := by
    unfold barcodeBuffers barcodePolicy
    rw [h2]
    by_cases hn : n = 2
    · simp [hn]
    · simp only [hn, if_false]
      rw [foldl_export_count]
      by_cases he : exportPng <;> simp [he, hn]
  exact ⟨h1, h2, h3⟩

/-! ### Determinism of the computed geometry -/

/-- An artist added to the drawing surface: a reference line or a scatter
series. -/
inductive Artist where
  | line (p q : ℚ × ℚ)
  | scatter (d : Dgm)
deriving DecidableEq, Repr

/-- `plot_diagrams` as an effect on the shared canvas: it appends the
horizon line (lifetime mode), the diagonal, the infinity line and one scatter
per diagram, and its computed geometry is a function of the arguments only. -/
def renderDiagrams (canvas : List Artist) (a : Args) :
    Except String (List Artist × Geometry) :=
  match plotGeometry a with
  | .error e => .error e
  | .ok g =>
    .ok (canvas ++
      (if a.lifetime then [Artist.line (g.bounds.x_down, 0) (g.bounds.x_up, 0)] else []) ++
      (if g.diagonal then
        [Artist.line (g.bounds.x_down, g.bounds.x_down) (g.bounds.x_up, g.bounds.x_up)]
        else []) ++
      (match g.bInf with
        | some bi => [Artist.line (g.bounds.x_down, bi) (g.bounds.x_up, bi)]
        | none => []) ++
      g.dgms.map Artist.scatter, g)

/-- C9: rendering the same diagrams twice with identical options and a fixed
explicit bounds tuple produces identical computed geometry, even though the
second render sees the canvas state mutated by the first — no hidden state
drift affects the computed coordinates, sentinel height, or bounds. -/
theorem claim9_render_deterministic (c0 : List Artist) (a : Args)
    (bounds : ℚ × ℚ × ℚ × ℚ) (hxy : a.xyRange = some bounds)
    (c1 c2 : List Artist) (g1 g2 : Geometry)
    (h1 : renderDiagrams c0 a = .ok (c1, g1)) (h2 : renderDiagrams c1 a = .ok (c2, g2)) :
    g1 = g2 := by
  unfold renderDiagrams at h1 h2
  cases hg : plotGeometry a with
  | error e =>
    rw [hg] at h1
    exact absurd h1 (by simp)
  | ok g =>
    rw [hg] at h1 h2
    rw [Except.ok.injEq, Prod.mk.injEq] at h1 h2
    rw [← h1.2, ← h2.2]

/-- Witness for C9: the diagram `[(0, 1)]` with explicit bounds (0,2,0,2)
rendered twice on an accumulating canvas computes the same geometry. -/
theorem claim9_render_deterministic_witness :
    (⟨⟨0, 2, 0, 2⟩, true, false, none, [[((0:ℚ), Val.fin 1)]], "Death"⟩ : Geometry) =
      ⟨⟨0, 2, 0, 2⟩, true, false, none, [[((0:ℚ), Val.fin 1)]], "Death"⟩ :=
  claim9_render_deterministic [] ⟨[[(0, Val.fin 1)]], some (0, 2, 0, 2), true, false⟩
    (0, 2, 0, 2) rfl
    [Artist.line (0, 0) (2, 2), Artist.scatter [(0, Val.fin 1)]]
    ([Artist.line (0, 0) (2, 2), Artist.scatter [(0, Val.fin 1)]] ++
      [Artist.line (0, 0) (2, 2), Artist.scatter [(0, Val.fin 1)]])
    ⟨⟨0, 2, 0, 2⟩, true, false, none, [[(0, Val.fin 1)]], "Death"⟩
    ⟨⟨0, 2, 0, 2⟩, true, false, none, [[(0, Val.fin 1)]], "Death"⟩
    (by norm_num [renderDiagrams, plotGeometry, inferBounds, hasInf, flattenVals, Val.isInf])
    (by norm_num [renderDiagrams, plotGeometry, inferBounds, hasInf, flattenVals, Val.isInf])

end Persim
